import Mathlib

/-!
Shallow embedding of the foragerr watchlist-sync / upgrade-sweep engine
(src/main.py, src/plex_api.py, src/radarr_api.py, src/search_conditions.py,
src/scheduled_upgrader.py, src/watchlist-scheduler.py, src/database.py),
with theorems settling the spec claims about merging, payload diffing,
search admission, cooldowns, tagging, locking and tag lookup.
-/

namespace Foragerr

/-! ### Python dict as an insertion-ordered association list

Python dicts preserve insertion order; assigning to an existing key replaces
the value in place, assigning to a fresh key appends.  `dictLookup` and
`dictUpsert` model exactly that. -/

def dictLookup {β : Type} : List (String × β) → String → Option β
  | [], _ => none
  | e :: rest, k => if e.1 = k then some e.2 else dictLookup rest k

def dictUpsert {β : Type} : List (String × β) → String → β → List (String × β)
  | [], k, v => [(k, v)]
  | e :: rest, k, v => if e.1 = k then (k, v) :: rest else e :: dictUpsert rest k v

theorem dictLookup_upsert {β : Type} (m : List (String × β)) (k k2 : String) (v : β) :
    dictLookup (dictUpsert m k v) k2 = if k2 = k then some v else dictLookup m k2 := by
  induction m with
  | nil =>
    by_cases h : k2 = k
    · simp [dictUpsert, dictLookup, h]
    · simp [dictUpsert, dictLookup, h, show ¬(k = k2) from fun hh => h hh.symm]
  | cons e rest ih =>
    simp only [dictUpsert]
    by_cases h : e.1 = k
    · by_cases h2 : k2 = k
      · simp [dictLookup, h, h2]
      · simp only [if_pos h, dictLookup, if_neg (show ¬(k = k2) from fun hh => h2 hh.symm),
          if_neg h2]
        rw [if_neg (show ¬(e.1 = k2) from fun hh => h2 (hh.symm.trans h))]
    · simp only [if_neg h, dictLookup]
      by_cases h2 : e.1 = k2
      · simp [h2, show ¬(k2 = k) from fun hh => h (h2.trans hh)]
      · simp [h2, ih]

theorem mem_dictUpsert {β : Type} (m : List (String × β)) (k : String) (v : β)
    (e : String × β) : e ∈ dictUpsert m k v → e = (k, v) ∨ e ∈ m := by
  induction m with
  | nil =>
    intro he
    simpa [dictUpsert] using he
  | cons f rest ih =>
    intro he
    simp only [dictUpsert] at he
    by_cases h : f.1 = k
    · rw [if_pos h] at he
      rcases List.mem_cons.mp he with hh | hh
      · exact Or.inl hh
      · exact Or.inr (List.mem_cons_of_mem _ hh)
    · rw [if_neg h] at he
      rcases List.mem_cons.mp he with hh | hh
      · exact Or.inr (hh ▸ List.mem_cons_self _ _)
      · rcases ih hh with h3 | h3
        · exact Or.inl h3
        · exact Or.inr (List.mem_cons_of_mem _ h3)

theorem dictLookup_mem {β : Type} (m : List (String × β)) (k : String) (v : β) :
    dictLookup m k = some v → (k, v) ∈ m := by
  induction m with
  | nil =>
    intro h
    simp [dictLookup] at h
  | cons e rest ih =>
    intro h
    simp only [dictLookup] at h
    by_cases hk : e.1 = k
    · rw [if_pos hk, Option.some.injEq] at h
      have he : e = (k, v) := by
        rcases e with ⟨e1, e2⟩
        simp only at hk h
        rw [hk, h]
      exact he ▸ List.mem_cons_self _ _
    · rw [if_neg hk] at h
      exact List.mem_cons_of_mem _ (ih h)

theorem dictLookup_ne_none_of_mem {β : Type} (m : List (String × β)) (e : String × β) :
    e ∈ m → dictLookup m e.1 ≠ none := by
  induction m with
  | nil =>
    intro he
    simp at he
  | cons f rest ih =>
    intro he
    simp only [dictLookup]
    by_cases h : f.1 = e.1
    · simp [h]
    · rcases List.mem_cons.mp he with hh | hh
      · exact absurd (hh ▸ rfl) h
      · rw [if_neg h]
        exact ih hh

def dictKeysNodup {β : Type} (m : List (String × β)) : Prop :=
  (m.map Prod.fst).Nodup

theorem dictKeysNodup_upsert {β : Type} (m : List (String × β)) (k : String) (v : β) :
    dictKeysNodup m → dictKeysNodup (dictUpsert m k v) := by
  induction m with
  | nil =>
    intro _
    simp [dictUpsert, dictKeysNodup]
  | cons e rest ih =>
    intro h
    simp only [dictKeysNodup, List.map_cons, List.nodup_cons] at h
    by_cases hk : e.1 = k
    · simp only [dictUpsert, if_pos hk, dictKeysNodup, List.map_cons, List.nodup_cons]
      exact ⟨hk ▸ h.1, h.2⟩
    · simp only [dictUpsert, if_neg hk, dictKeysNodup, List.map_cons, List.nodup_cons]
      refine ⟨?_, ih h.2⟩
      intro hmem
      rcases List.mem_map.mp hmem with ⟨f, hf, hfe⟩
      rcases mem_dictUpsert rest k v f hf with hh | hh
      · exact hk (by rw [← hfe, hh])
      · exact h.1 (hfe ▸ List.mem_map_of_mem Prod.fst hh)

theorem dictKeysNodup_value_unique {β : Type} (m : List (String × β)) (k : String)
    (v1 v2 : β) (hnd : dictKeysNodup m) (h1 : (k, v1) ∈ m) (h2 : (k, v2) ∈ m) :
    v1 = v2 := by
  induction m with
  | nil => simp at h1
  | cons e rest ih =>
    simp only [dictKeysNodup, List.map_cons, List.nodup_cons] at hnd
    rcases List.mem_cons.mp h1 with ha | ha <;> rcases List.mem_cons.mp h2 with hb | hb
    · have hab : (k, v1) = (k, v2) := ha.trans hb.symm
      exact ((Prod.mk.injEq _ _ _ _).mp hab).2
    · exfalso
      have hk : k ∈ List.map Prod.fst rest := List.mem_map_of_mem Prod.fst hb
      rw [← ha] at hnd
      exact hnd.1 hk
    · exfalso
      have hk : k ∈ List.map Prod.fst rest := List.mem_map_of_mem Prod.fst ha
      rw [← hb] at hnd
      exact hnd.1 hk
    · exact ih hnd.2 ha hb

/-! ### Watchlist merging (src/plex_api.py, merge_watchlists)

A watchlist item carries the fields the merge inspects: the raw IMDb id and
the remote rating key (both optional, as in the Python dicts).  The title
stands in for the rest of the payload so that distinct items are
distinguishable. -/

structure WatchlistItem where
  title : String
  imdbId : Option String
  ratingKey : Option String
deriving DecidableEq

/-- ASCII model of Python lower-casing of one character. -/
def lowerChar (c : Char) : Char :=
  if 65 ≤ c.toNat ∧ c.toNat ≤ 90 then Char.ofNat (c.toNat + 32) else c

/-- Python whitespace test used by `str.strip()`. -/
def isSpaceChar (c : Char) : Bool :=
  c == ' ' || c == '\t' || c == '\n' || c == '\r'

/-- Models Python `s.strip()`: drop leading and trailing whitespace. -/
def pyStrip (s : String) : String :=
  String.mk (((s.data.dropWhile isSpaceChar).reverse.dropWhile isSpaceChar).reverse)

/-- Models Python `s.lower()` (ASCII). -/
def pyLower (s : String) : String :=
  String.mk (s.data.map lowerChar)

/-- Models the Python expression `(item.get("imdbId") or "").strip().lower()`. -/
def normImdb (item : WatchlistItem) : String :=
  pyLower (pyStrip (item.imdbId.getD ""))

/-- Models `key = imdb if imdb else item.get("ratingKey")` followed by the
truthiness test `if key:`; `none` means the item has no usable key. -/
def pyKey (item : WatchlistItem) : Option String :=
  if normImdb item ≠ "" then some (normImdb item)
  else match item.ratingKey with
    | some r => if r = "" then none else some r
    | none => none

/-- One iteration of the primary-list loop of `merge_watchlists`. -/
def insertPrimary (m : List (String × WatchlistItem)) (item : WatchlistItem) :
    List (String × WatchlistItem) :=
  match pyKey item with
  | some k => dictUpsert m k item
  | none => m

/-- One iteration of the friends-list loop of `merge_watchlists`:
`if imdb and imdb not in merged: merged[imdb] = item`. -/
def insertSecondary (m : List (String × WatchlistItem)) (item : WatchlistItem) :
    List (String × WatchlistItem) :=
  if normImdb item = "" then m
  else match dictLookup m (normImdb item) with
    | some _ => m
    | none => dictUpsert m (normImdb item) item

/-- The merged dict built by `merge_watchlists` before taking `.values()`. -/
def mergeDict (personal friends : List WatchlistItem) : List (String × WatchlistItem) :=
  friends.foldl insertSecondary (personal.foldl insertPrimary [])

/-- Models `merge_watchlists(personal_list, friends_list)`: the insertion-order
list of the merged dict values. -/
def merge_watchlists (personal friends : List WatchlistItem) : List WatchlistItem :=
  (mergeDict personal friends).map Prod.snd

theorem insertPrimary_entry_inv (m : List (String × WatchlistItem)) (item : WatchlistItem)
    (hm : ∀ e ∈ m, pyKey e.2 = some e.1) :
    ∀ e ∈ insertPrimary m item, pyKey e.2 = some e.1 := by
  intro e he
  unfold insertPrimary at he
  cases hk : pyKey item with
  | none => exact hm e (by rwa [hk] at he)
  | some k =>
    rw [hk] at he
    rcases mem_dictUpsert m k item e he with hh | hh
    · rw [hh]
      exact hk
    · exact hm e hh

theorem insertSecondary_entry_inv (m : List (String × WatchlistItem)) (item : WatchlistItem)
    (hm : ∀ e ∈ m, pyKey e.2 = some e.1) :
    ∀ e ∈ insertSecondary m item, pyKey e.2 = some e.1 := by
  intro e he
  unfold insertSecondary at he
  by_cases h : normImdb item = ""
  · exact hm e (by rwa [if_pos h] at he)
  · rw [if_neg h] at he
    cases hl : dictLookup m (normImdb item) with
    | some v => exact hm e (by rwa [hl] at he)
    | none =>
      rw [hl] at he
      rcases mem_dictUpsert m (normImdb item) item e he with hh | hh
      · rw [hh]
        simp only [pyKey, if_pos]
        rw [if_pos h]
      · exact hm e hh

theorem foldl_insertPrimary_entry_inv (l : List WatchlistItem) :
    ∀ m, (∀ e ∈ m, pyKey e.2 = some e.1) →
      ∀ e ∈ l.foldl insertPrimary m, pyKey e.2 = some e.1 := by
  induction l with
  | nil => exact fun m hm => hm
  | cons x xs ih =>
    intro m hm
    exact ih (insertPrimary m x) (insertPrimary_entry_inv m x hm)

theorem foldl_insertSecondary_entry_inv (l : List WatchlistItem) :
    ∀ m, (∀ e ∈ m, pyKey e.2 = some e.1) →
      ∀ e ∈ l.foldl insertSecondary m, pyKey e.2 = some e.1 := by
  induction l with
  | nil => exact fun m hm => hm
  | cons x xs ih =>
    intro m hm
    exact ih (insertSecondary m x) (insertSecondary_entry_inv m x hm)

theorem mergeDict_entry_inv (personal friends : List WatchlistItem) :
    ∀ e ∈ mergeDict personal friends, pyKey e.2 = some e.1 :=
  foldl_insertSecondary_entry_inv friends _
    (foldl_insertPrimary_entry_inv personal [] (by simp))

theorem insertPrimary_keysNodup (m : List (String × WatchlistItem)) (item : WatchlistItem)
    (hm : dictKeysNodup m) : dictKeysNodup (insertPrimary m item) := by
  unfold insertPrimary
  cases pyKey item with
  | none => exact hm
  | some k => exact dictKeysNodup_upsert m k item hm

theorem insertSecondary_keysNodup (m : List (String × WatchlistItem)) (item : WatchlistItem)
    (hm : dictKeysNodup m) : dictKeysNodup (insertSecondary m item) := by
  unfold insertSecondary
  by_cases h : normImdb item = ""
  · rwa [if_pos h]
  · rw [if_neg h]
    cases dictLookup m (normImdb item) with
    | some v => exact hm
    | none => exact dictKeysNodup_upsert m _ item hm

theorem mergeDict_keysNodup (personal friends : List WatchlistItem) :
    dictKeysNodup (mergeDict personal friends) := by
  have h1 : ∀ (l : List WatchlistItem) (m : List (String × WatchlistItem)),
      dictKeysNodup m → dictKeysNodup (l.foldl insertPrimary m) := by
    intro l
    induction l with
    | nil => exact fun m hm => hm
    | cons x xs ih => exact fun m hm => ih _ (insertPrimary_keysNodup m x hm)
  have h2 : ∀ (l : List WatchlistItem) (m : List (String × WatchlistItem)),
      dictKeysNodup m → dictKeysNodup (l.foldl insertSecondary m) := by
    intro l
    induction l with
    | nil => exact fun m hm => hm
    | cons x xs ih => exact fun m hm => ih _ (insertSecondary_keysNodup m x hm)
  exact h2 friends _ (h1 personal [] (by simp [dictKeysNodup]))

theorem foldl_insertPrimary_lookup (l : List WatchlistItem) :
    ∀ (m : List (String × WatchlistItem)) (k : String) (v : WatchlistItem),
      dictLookup (l.foldl insertPrimary m) k = some v →
      (v ∈ l ∧ pyKey v = some k) ∨ dictLookup m k = some v := by
  induction l with
  | nil =>
    intro m k v h
    exact Or.inr h
  | cons x xs ih =>
    intro m k v h
    rcases ih (insertPrimary m x) k v h with hh | hh
    · exact Or.inl ⟨List.mem_cons_of_mem _ hh.1, hh.2⟩
    · unfold insertPrimary at hh
      cases hx : pyKey x with
      | none =>
        rw [hx] at hh
        exact Or.inr hh
      | some kx =>
        rw [hx, dictLookup_upsert] at hh
        by_cases hk : k = kx
        · rw [if_pos hk, Option.some.injEq] at hh
          exact Or.inl ⟨hh ▸ List.mem_cons_self _ _, by rw [← hh, hx, hk]⟩
        · rw [if_neg hk] at hh
          exact Or.inr hh

theorem insertPrimary_lookup_preserve (m : List (String × WatchlistItem))
    (x : WatchlistItem) (k : String) (h : dictLookup m k ≠ none) :
    dictLookup (insertPrimary m x) k ≠ none := by
  unfold insertPrimary
  cases pyKey x with
  | none => exact h
  | some kx =>
    rw [dictLookup_upsert]
    by_cases hk : k = kx
    · simp [hk]
    · rwa [if_neg hk]

theorem foldl_insertPrimary_lookup_ne_none (l : List WatchlistItem) :
    ∀ (m : List (String × WatchlistItem)) (k : String),
      ((∃ q ∈ l, pyKey q = some k) ∨ dictLookup m k ≠ none) →
      dictLookup (l.foldl insertPrimary m) k ≠ none := by
  induction l with
  | nil =>
    intro m k h
    rcases h with ⟨q, hq, _⟩ | h
    · simp at hq
    · exact h
  | cons x xs ih =>
    intro m k h
    rcases h with ⟨q, hq, hqk⟩ | h
    · rcases List.mem_cons.mp hq with hh | hh
      · refine ih _ k (Or.inr ?_)
        subst hh
        unfold insertPrimary
        rw [hqk, dictLookup_upsert, if_pos rfl]
        simp
      · exact ih _ k (Or.inl ⟨q, hh, hqk⟩)
    · exact ih _ k (Or.inr (insertPrimary_lookup_preserve m x k h))

theorem insertSecondary_lookup_preserve (m : List (String × WatchlistItem))
    (x : WatchlistItem) (k : String) (v : WatchlistItem)
    (h : dictLookup m k = some v) :
    dictLookup (insertSecondary m x) k = some v := by
  unfold insertSecondary
  by_cases hn : normImdb x = ""
  · rwa [if_pos hn]
  · rw [if_neg hn]
    cases hl : dictLookup m (normImdb x) with
    | some w => exact h
    | none =>
      rw [dictLookup_upsert]
      by_cases hk : k = normImdb x
      · rw [hk] at h
        rw [h] at hl
        exact absurd hl (by simp)
      · rwa [if_neg hk]

theorem foldl_insertSecondary_lookup_preserve (l : List WatchlistItem) :
    ∀ (m : List (String × WatchlistItem)) (k : String) (v : WatchlistItem),
      dictLookup m k = some v →
      dictLookup (l.foldl insertSecondary m) k = some v := by
  induction l with
  | nil => exact fun m k v h => h
  | cons x xs ih =>
    intro m k v h
    exact ih _ k v (insertSecondary_lookup_preserve m x k v h)

theorem foldl_insertSecondary_provenance (l : List WatchlistItem) :
    ∀ (m : List (String × WatchlistItem)) (e : String × WatchlistItem),
      e ∈ l.foldl insertSecondary m →
      e ∈ m ∨ (e.2 ∈ l ∧ e.1 = normImdb e.2 ∧ normImdb e.2 ≠ "" ∧
        dictLookup m e.1 = none) := by
  induction l with
  | nil =>
    intro m e he
    exact Or.inl he
  | cons x xs ih =>
    intro m e he
    rcases ih _ e he with hh | hh
    · unfold insertSecondary at hh
      by_cases hn : normImdb x = ""
      · rw [if_pos hn] at hh
        exact Or.inl hh
      · rw [if_neg hn] at hh
        cases hl : dictLookup m (normImdb x) with
        | some w =>
          rw [hl] at hh
          exact Or.inl hh
        | none =>
          rw [hl] at hh
          rcases mem_dictUpsert m _ x e hh with h3 | h3
          · refine Or.inr ⟨?_, ?_, ?_, ?_⟩
            · rw [h3]
              exact List.mem_cons_self _ _
            · rw [h3]
            · rw [h3]
              exact hn
            · rw [h3]
              exact hl
          · exact Or.inl h3
    · rcases hh with ⟨he2, he1, hne, hlook⟩
      refine Or.inr ⟨List.mem_cons_of_mem _ he2, he1, hne, ?_⟩
      cases hfind : dictLookup m e.1 with
      | none => rfl
      | some w =>
        have hp := insertSecondary_lookup_preserve m x e.1 w hfind
        rw [hp] at hlook
        exact absurd hlook (by simp)

theorem foldl_insertPrimary_mem (l : List WatchlistItem) :
    ∀ (m : List (String × WatchlistItem)) (e : String × WatchlistItem),
      e ∈ l.foldl insertPrimary m → e.2 ∈ l ∨ e ∈ m := by
  induction l with
  | nil =>
    intro m e he
    exact Or.inr he
  | cons x xs ih =>
    intro m e he
    rcases ih _ e he with hh | hh
    · exact Or.inl (List.mem_cons_of_mem _ hh)
    · unfold insertPrimary at hh
      cases hx : pyKey x with
      | none =>
        rw [hx] at hh
        exact Or.inr hh
      | some kx =>
        rw [hx] at hh
        rcases mem_dictUpsert m kx x e hh with h3 | h3
        · exact Or.inl (by rw [h3]; exact List.mem_cons_self _ _)
        · exact Or.inr h3

theorem pyKey_of_norm_ne (i : WatchlistItem) (h : normImdb i ≠ "") :
    pyKey i = some (normImdb i) := by
  unfold pyKey
  rw [if_pos h]

theorem foldl_insertPrimary_lookup_stable (xs : List WatchlistItem) :
    ∀ (m : List (String × WatchlistItem)) (k : String) (q : WatchlistItem),
      dictLookup m k = some q → (∀ y ∈ xs, pyKey y = some k → y = q) →
      dictLookup (xs.foldl insertPrimary m) k = some q := by
  induction xs with
  | nil => exact fun m k q h _ => h
  | cons x l ih =>
    intro m k q h hu
    refine ih _ k q ?_ (fun y hy hyk => hu y (List.mem_cons_of_mem _ hy) hyk)
    unfold insertPrimary
    cases hx : pyKey x with
    | none => exact h
    | some kx =>
      rw [dictLookup_upsert]
      by_cases hk : k = kx
      · rw [if_pos hk]
        have hxq : x = q := hu x (List.mem_cons_self _ _) (by rw [hx, hk])
        rw [hxq]
      · rwa [if_neg hk]

theorem foldl_insertPrimary_complete (p : List WatchlistItem) :
    ∀ (m : List (String × WatchlistItem)),
      (∀ q1 ∈ p, ∀ q2 ∈ p, ∀ k, pyKey q1 = some k → pyKey q2 = some k → q1 = q2) →
      ∀ q ∈ p, ∀ k, pyKey q = some k →
        dictLookup (p.foldl insertPrimary m) k = some q := by
  induction p with
  | nil =>
    intro m _ q hq
    simp at hq
  | cons x xs ih =>
    intro m hdist q hq k hk
    rcases List.mem_cons.mp hq with hqx | hqxs
    · subst hqx
      refine foldl_insertPrimary_lookup_stable xs _ k q ?_ ?_
      · unfold insertPrimary
        rw [hk, dictLookup_upsert, if_pos rfl]
      · intro y hy hyk
        exact hdist y (List.mem_cons_of_mem _ hy) q (List.mem_cons_self _ _) k hyk hk
    · exact ih _
        (fun q1 h1 q2 h2 => hdist q1 (List.mem_cons_of_mem _ h1) q2 (List.mem_cons_of_mem _ h2))
        q hqxs k hk

/-- C5: `merge_watchlists` keys each item by its normalized IMDb id when
present, else by its rating key; the merged dict binds every key to an item
whose key it is; primary items always win key collisions (every key claimed
by a primary item resolves to a primary item in the output); a friends-list
item that survives the merge without being a primary item was keyed by a
nonempty normalized IMDb id that no primary item claims; and every merged
item has a key, so keyless items are dropped. -/
theorem merge_watchlists_key_policy (personal friends : List WatchlistItem) :
    (∀ e ∈ mergeDict personal friends, pyKey e.2 = some e.1) ∧
    (∀ i ∈ merge_watchlists personal friends, pyKey i ≠ none) ∧
    (∀ k, (∃ q ∈ personal, pyKey q = some k) →
        ∃ q ∈ personal, dictLookup (mergeDict personal friends) k = some q) ∧
    (∀ i ∈ merge_watchlists personal friends, i ∉ personal →
        normImdb i ≠ "" ∧ ∀ q ∈ personal, pyKey q ≠ some (normImdb i)) := by
  refine ⟨mergeDict_entry_inv personal friends, ?_, ?_, ?_⟩
  · intro i hi
    rcases List.mem_map.mp hi with ⟨e, he, hei⟩
    rw [← hei, mergeDict_entry_inv personal friends e he]
    simp
  · intro k hk
    have hne : dictLookup (personal.foldl insertPrimary []) k ≠ none :=
      foldl_insertPrimary_lookup_ne_none personal [] k (Or.inl hk)
    cases hv : dictLookup (personal.foldl insertPrimary []) k with
    | none => exact absurd hv hne
    | some v =>
      rcases foldl_insertPrimary_lookup personal [] k v hv with hh | hh
      · exact ⟨v, hh.1, foldl_insertSecondary_lookup_preserve friends _ k v hv⟩
      · simp [dictLookup] at hh
  · intro i hi hip
    rcases List.mem_map.mp hi with ⟨e, he, hei⟩
    rcases foldl_insertSecondary_provenance friends _ e he with hh | hh
    · rcases foldl_insertPrimary_mem personal [] e hh with h3 | h3
      · exact absurd (hei ▸ h3) hip
      · simp at h3
    · rcases hh with ⟨_, he1, hne, hlook⟩
      rw [hei] at hne
      refine ⟨hne, ?_⟩
      intro q hq hqk
      have hcon : dictLookup (personal.foldl insertPrimary []) (normImdb i) ≠ none :=
        foldl_insertPrimary_lookup_ne_none personal [] _ (Or.inl ⟨q, hq, hqk⟩)
      rw [he1, hei] at hlook
      exact hcon hlook

/-- C5 witness: with one primary and one friends item sharing IMDb id tt1,
the merged dict resolves key tt1 to the primary item. -/
theorem merge_watchlists_key_policy_witness :
    ∃ q ∈ [WatchlistItem.mk "P" (some "tt1") none],
      dictLookup (mergeDict [WatchlistItem.mk "P" (some "tt1") none]
        [WatchlistItem.mk "F" (some "tt1") none]) "tt1" = some q :=
  (merge_watchlists_key_policy _ _).2.2.1 "tt1"
    ⟨WatchlistItem.mk "P" (some "tt1") none, List.mem_cons_self _ _, by decide⟩

/-- C6 (amended): the merge output never contains two items sharing one
nonempty normalized IMDb id; and provided no two distinct primary items
claim the same key, every primary item that has a key appears in the merged
output.  (Without that proviso the completeness half fails: a later primary
item with the same key overwrites an earlier one.) -/
theorem merge_watchlists_unique_and_complete (personal friends : List WatchlistItem) :
    (∀ a ∈ merge_watchlists personal friends, ∀ b ∈ merge_watchlists personal friends,
        normImdb a ≠ "" → normImdb a = normImdb b → a = b) ∧
    ((∀ q1 ∈ personal, ∀ q2 ∈ personal, ∀ k,
        pyKey q1 = some k → pyKey q2 = some k → q1 = q2) →
      ∀ q ∈ personal, pyKey q ≠ none → q ∈ merge_watchlists personal friends) := by
  constructor
  · intro a ha b hb hane hab
    rcases List.mem_map.mp ha with ⟨ea, hea, heai⟩
    rcases List.mem_map.mp hb with ⟨eb, heb, hebi⟩
    have hka : ea.1 = normImdb a := by
      have h1 := mergeDict_entry_inv personal friends ea hea
      rw [heai, pyKey_of_norm_ne a hane] at h1
      exact (Option.some.injEq _ _).mp h1.symm
    have hbne : normImdb b ≠ "" := hab ▸ hane
    have hkb : eb.1 = normImdb b := by
      have h1 := mergeDict_entry_inv personal friends eb heb
      rw [hebi, pyKey_of_norm_ne b hbne] at h1
      exact (Option.some.injEq _ _).mp h1.symm
    have hkeq : ea.1 = eb.1 := by rw [hka, hkb, hab]
    have hma : (ea.1, a) ∈ mergeDict personal friends := by
      have : ea = (ea.1, a) := by
        rcases ea with ⟨k1, v1⟩
        simp only at heai
        rw [heai]
      exact this ▸ hea
    have hmb : (ea.1, b) ∈ mergeDict personal friends := by
      have : eb = (ea.1, b) := by
        rcases eb with ⟨k1, v1⟩
        simp only at hebi hkeq
        rw [hebi, hkeq]
      exact this ▸ heb
    exact dictKeysNodup_value_unique _ ea.1 a b (mergeDict_keysNodup personal friends) hma hmb
  · intro hdist q hq hqk
    cases hk : pyKey q with
    | none => exact absurd hk hqk
    | some k =>
      have hlook : dictLookup (personal.foldl insertPrimary []) k = some q :=
        foldl_insertPrimary_complete personal [] hdist q hq k hk
      have hfin : dictLookup (mergeDict personal friends) k = some q :=
        foldl_insertSecondary_lookup_preserve friends _ k q hlook
      exact List.mem_map.mpr ⟨(k, q), dictLookup_mem _ k q hfin, rfl⟩

/-- C6 counterexample: two distinct primary items share IMDb key tt0000001;
the first one has a key yet is absent from the merge output, so the
unconditional completeness half of the claim is false. -/
theorem merge_watchlists_complete_counterexample :
    WatchlistItem.mk "Movie A" (some "tt0000001") none ∈
        [WatchlistItem.mk "Movie A" (some "tt0000001") none,
         WatchlistItem.mk "Movie B" (some "tt0000001") none] ∧
    pyKey (WatchlistItem.mk "Movie A" (some "tt0000001") none) ≠ none ∧
    WatchlistItem.mk "Movie A" (some "tt0000001") none ∉
      merge_watchlists
        [WatchlistItem.mk "Movie A" (some "tt0000001") none,
         WatchlistItem.mk "Movie B" (some "tt0000001") none] [] := by
  refine ⟨List.mem_cons_self _ _, by decide, by decide⟩

/-- C6 witness: with two primary items carrying distinct IMDb ids, the first
primary item survives the merge. -/
theorem merge_watchlists_unique_and_complete_witness :
    WatchlistItem.mk "A" (some "tt1") none ∈
      merge_watchlists [WatchlistItem.mk "A" (some "tt1") none,
        WatchlistItem.mk "B" (some "tt2") none] [] :=
  (merge_watchlists_unique_and_complete _ _).2 (by decide)
    (WatchlistItem.mk "A" (some "tt1") none) (List.mem_cons_self _ _) (by decide)

/-! ### Payload diffing (src/main.py, needs_update)

`needs_update` compares five scalar fields with `str(...) != str(...)`, the
tag lists as sets, and `addOptions.searchForMovie`.  The record stores each
scalar field in its `str(...)`-coerced form, the tags as the raw id list,
and the search sub-option as an optional flag (`none` models a missing
`searchForMovie` key). -/

structure RadarrMovieFields where
  monitored : String
  qualityProfileId : String
  rootFolderPath : String
  path : String
  minimumAvailability : String
  tags : List Nat
  searchForMovie : Option Bool
deriving DecidableEq

/-- Models `needs_update(current_movie, new_payload)` from src/main.py. -/
def needs_update (current new : RadarrMovieFields) : Bool :=
  if current.monitored ≠ new.monitored then true
  else if current.qualityProfileId ≠ new.qualityProfileId then true
  else if current.rootFolderPath ≠ new.rootFolderPath then true
  else if current.path ≠ new.path then true
  else if current.minimumAvailability ≠ new.minimumAvailability then true
  else if current.tags.toFinset ≠ new.tags.toFinset then true
  else if current.searchForMovie ≠ new.searchForMovie then true
  else false

/-- C7: `needs_update(X, X)` is false for every record X, and
`needs_update(X, Y)` is true exactly when one of the five string-coerced
scalar fields differs, the tag sets differ as unordered sets, or the
`searchForMovie` sub-option differs. -/
theorem needs_update_refl_and_sensitive (X Y : RadarrMovieFields) :
    needs_update X X = false ∧
    (needs_update X Y = true ↔
      (X.monitored ≠ Y.monitored ∨ X.qualityProfileId ≠ Y.qualityProfileId ∨
       X.rootFolderPath ≠ Y.rootFolderPath ∨ X.path ≠ Y.path ∨
       X.minimumAvailability ≠ Y.minimumAvailability ∨
       X.tags.toFinset ≠ Y.tags.toFinset ∨
       X.searchForMovie ≠ Y.searchForMovie)) := by
  constructor
  · simp [needs_update]
  · unfold needs_update
    split_ifs with h1 h2 h3 h4 h5 h6 h7 <;> simp_all

/-! ### Search cooldowns (src/search_conditions.py, src/scheduled_upgrader.py)

Timestamps are modelled as seconds (signed, since `datetime.min` predates the
epoch).  The persisted `last_radarr_search` field of a cache record is either
absent (no record / falsy field), an unparsable string
(`datetime.fromisoformat` raises), or a parsed timestamp. -/

inductive LastSearchValue where
  | noRecord : LastSearchValue
  | emptyField : LastSearchValue
  | unparsable (raw : String) : LastSearchValue
  | parsed (t : Int) : LastSearchValue
deriving DecidableEq

/-- Models `should_trigger_search(movie)` as a function of the cache record
state and the current time: no record or no recorded search triggers; an
unparsable timestamp triggers (the code allows a search to be safe);
otherwise trigger only when `(now - last_search).days >= 7`, where
`timedelta.days` floor-divides the elapsed seconds by 86400. -/
def should_trigger_search (v : LastSearchValue) (now : Int) : Bool :=
  match v with
  | .noRecord => true
  | .emptyField => true
  | .unparsable _ => true
  | .parsed t => 7 ≤ Int.fdiv (now - t) 86400

/-- Seconds from `datetime.min` (0001-01-01 00:00:00) to the Unix epoch,
negated: the sentinel the upgrade sweep assigns when no parsed last-search
time exists. -/
def pythonDatetimeMin : Int := -62135596800

/-- Models the upgrade sweep's `last_search_time` for a movie: the parsed
timestamp when the record has one, else `datetime.min`. -/
def upgrade_last_search_time (v : LastSearchValue) : Int :=
  match v with
  | .parsed t => t
  | _ => pythonDatetimeMin

/-- Models the sweep's per-item cooldown test
`(datetime.now() - last_search_time).total_seconds() / 3600 < 24`:
the movie is skipped when this is true. -/
def upgrade_recent_search_skip (lastSearchTime now : Int) : Bool :=
  ((now - lastSearchTime : ℚ) / 3600) < 24

/-- C2: a record searched exactly 3 days ago is denied by the 7-day check and
one searched 8 days ago is admitted; the sweep's 24-hour check skips a movie
searched 20 hours ago and does not skip one searched 25 hours ago. -/
theorem cooldown_thresholds (now : Int) :
    should_trigger_search (.parsed (now - 3 * 86400)) now = false ∧
    should_trigger_search (.parsed (now - 8 * 86400)) now = true ∧
    upgrade_recent_search_skip (now - 20 * 3600) now = true ∧
    upgrade_recent_search_skip (now - 25 * 3600) now = false := by
  have h3 : now - (now - 3 * 86400) = 259200 := by ring
  have h8 : now - (now - 8 * 86400) = 691200 := by ring
  have h20 : ((now - (now - 20 * 3600) : Int) : ℚ) = 72000 := by push_cast; ring
  have h25 : ((now - (now - 25 * 3600) : Int) : ℚ) = 90000 := by push_cast; ring
  refine ⟨?_, ?_, ?_, ?_⟩
  · simp only [should_trigger_search, h3]
    norm_num [Int.fdiv]
  · simp only [should_trigger_search, h8]
    norm_num [Int.fdiv]
  · simp only [upgrade_recent_search_skip, h20]
    norm_num
  · simp only [upgrade_recent_search_skip, h25]
    norm_num

/-! ### Data-integrity handling on the new-movie path (src/main.py) -/

/-- Models `tmdb_id = str(movie.get("tmdbId", "")).strip() if movie.get("tmdbId") else ""`;
the argument is the `str(...)` form of the raw field, `none` when absent. -/
def tmdb_id_of (raw : Option String) : String :=
  match raw with
  | some s => if s = "" then "" else pyStrip s
  | none => ""

inductive NewMovieOutcome where
  | skippedMissingTmdb : NewMovieOutcome
  | skippedInvalidTmdb : NewMovieOutcome
  | addAttempted (tmdbId : Int) : NewMovieOutcome
deriving DecidableEq

/-- Models the new-movie validation block of `process_watchlist`: an item
with no TMDB id is skipped (never created), an item whose TMDB id fails
integer parsing (`int(...)` raising ValueError, modelled by
`String.toInt?`) is skipped, and otherwise the add proceeds. -/
def process_new_movie (raw : Option String) : NewMovieOutcome :=
  let tmdb := tmdb_id_of raw
  if tmdb = "" then .skippedMissingTmdb
  else match tmdb.toInt? with
    | some n => .addAttempted n
    | none => .skippedInvalidTmdb

/-- C8 (amended): data-integrity faults are non-fatal and the run continues
past them (every item of a run yields an outcome); an item missing the
required TMDB id is skipped rather than created; but an item whose persisted
last-search timestamp is unparsable is NOT skipped — both the 7-day check
and the upgrade sweep treat it as never searched, so a search may be issued
for it. -/
theorem data_integrity_faults (l : List (Option String)) (raw : String) (now : Int)
    (hnow : 0 ≤ now) :
    process_new_movie none = .skippedMissingTmdb ∧
    process_new_movie (some "") = .skippedMissingTmdb ∧
    (List.map process_new_movie l).length = l.length ∧
    should_trigger_search (.unparsable raw) now = true ∧
    upgrade_recent_search_skip (upgrade_last_search_time (.unparsable raw)) now = false := by
  refine ⟨rfl, rfl, by simp, rfl, ?_⟩
  simp only [upgrade_recent_search_skip, upgrade_last_search_time, pythonDatetimeMin]
  have hc : (0 : ℚ) ≤ (now : ℚ) := by exact_mod_cast hnow
  rw [decide_eq_false_iff_not, not_lt, le_div_iff₀ (by norm_num : (0 : ℚ) < 3600)]
  push_cast
  linarith

/-- C8 counterexample: a cache record whose persisted last-search timestamp
is unparsable is not skipped — the admission check returns true, so a search
is issued for it, contradicting the claim that such an item is skipped. -/
theorem unparsable_timestamp_counterexample :
    should_trigger_search (.unparsable "not-a-timestamp") 0 = true := rfl

/-- C8 witness: instantiation of the amended theorem at time 5 with an
unparsable raw timestamp string. -/
theorem data_integrity_faults_witness :
    should_trigger_search (.unparsable "garbage") 5 = true ∧
    upgrade_recent_search_skip (upgrade_last_search_time (.unparsable "garbage")) 5 = false :=
  ⟨(data_integrity_faults [] "garbage" 5 (by norm_num)).2.2.2.1,
   (data_integrity_faults [] "garbage" 5 (by norm_num)).2.2.2.2⟩

/-! ### Search-admission counters (src/main.py, src/scheduled_upgrader.py)

One job invocation carries `run_search_count` (starts at 0) and
`daily_search_count` (read from the persisted counter file).  Both sync
call sites perform the same admission sequence: deny past the global daily
limit, deny past the per-run limit, then trigger; on a successful trigger
both counters are incremented and the daily count persisted.  The
per-item conditions that are independent of the counters (movie found or
added, upgrade eligibility, prior-search denial) are summarized by
`wantsSearch`, and the outcome of the Radarr trigger call by
`triggerSucceeds`. -/

structure SearchCounters where
  runCount : Nat
  dailyCount : Nat
deriving DecidableEq

structure SyncItemObs where
  wantsSearch : Bool
  triggerSucceeds : Bool
deriving DecidableEq

def limitAllows (limit : Option Nat) (count : Nat) : Bool :=
  match limit with
  | some l => count < l
  | none => true

/-- Admission and counting for one item of the watchlist-sync loop
(both the new-movie block at main.py:269-287 and the existing-movie block
at main.py:375-386). -/
def syncSearchStep (globalLimit perRunLimit : Option Nat)
    (c : SearchCounters) (it : SyncItemObs) : SearchCounters :=
  if it.wantsSearch && limitAllows globalLimit c.dailyCount &&
      limitAllows perRunLimit c.runCount && it.triggerSucceeds then
    { runCount := c.runCount + 1, dailyCount := c.dailyCount + 1 }
  else c

/-- Counter evolution of one `process_watchlist` run starting from persisted
daily count `d0`. -/
def process_watchlist_counters (globalLimit perRunLimit : Option Nat)
    (items : List SyncItemObs) (d0 : Nat) : SearchCounters :=
  items.foldl (syncSearchStep globalLimit perRunLimit) { runCount := 0, dailyCount := d0 }

/-- The phase-2 search loop of `job_upgrade`: candidates are consumed with
their enumeration index; the loop breaks at the per-run cutoff and when the
daily limit is reached, and increments both counters per successful
trigger. -/
def dailyLimitReached (globalLimit : Option Nat) (daily : Nat) : Bool :=
  match globalLimit with
  | some g => g ≤ daily
  | none => false

def upgradeSearchLoop (globalLimit : Option Nat) (perRunLimit : Nat) :
    List Bool → Nat → SearchCounters → SearchCounters
  | [], _, c => c
  | succ :: rest, i, c =>
    if perRunLimit ≤ i then c
    else if dailyLimitReached globalLimit c.dailyCount then c
    else
      upgradeSearchLoop globalLimit perRunLimit rest (i + 1)
        (if succ then { runCount := c.runCount + 1, dailyCount := c.dailyCount + 1 } else c)

/-- Counter evolution of one `job_upgrade` run: the candidate list is
cleared up front when the daily limit is already reached or the per-run
limit is not positive, then the search loop runs. -/
def job_upgrade_counters (globalLimit : Option Nat) (perRunLimit : Nat)
    (candidates : List Bool) (d0 : Nat) : SearchCounters :=
  let cands := match globalLimit with
    | some g => if g ≤ d0 then [] else candidates
    | none => candidates
  let cands := if perRunLimit ≤ 0 then [] else cands
  upgradeSearchLoop globalLimit perRunLimit cands 0 { runCount := 0, dailyCount := d0 }

/-- A job invocation sharing the persisted daily counter file: a sync run, an
upgrade run, or the read-side reset that happens when the persisted date is
not today. -/
inductive JobRun where
  | sync (perRunLimit : Option Nat) (items : List SyncItemObs) : JobRun
  | upgrade (perRunLimit : Nat) (candidates : List Bool) : JobRun
  | dayReset : JobRun

/-- The persisted daily count after a sequence of runs, all sharing one
counter file, starting from persisted count `d0`. -/
def daily_count_after (globalLimit : Option Nat) (runs : List JobRun) (d0 : Nat) : Nat :=
  runs.foldl (fun d r =>
    match r with
    | .sync p items => (process_watchlist_counters globalLimit p items d).dailyCount
    | .upgrade p cands => (job_upgrade_counters globalLimit p cands d).dailyCount
    | .dayReset => 0) d0

theorem syncSearchStep_run_le (g p : Option Nat) (c : SearchCounters) (it : SyncItemObs)
    (pl : Nat) (hp : p = some pl) (hc : c.runCount ≤ pl) :
    (syncSearchStep g p c it).runCount ≤ pl := by
  unfold syncSearchStep
  by_cases h : (it.wantsSearch && limitAllows g c.dailyCount &&
      limitAllows p c.runCount && it.triggerSucceeds) = true
  · rw [if_pos h]
    simp only [Bool.and_eq_true] at h
    have hlt : c.runCount < pl := by
      have := h.1.2
      rwa [hp, limitAllows, decide_eq_true_eq] at this
    exact hlt
  · rw [if_neg h]
    exact hc

theorem syncSearchStep_daily_le (g p : Option Nat) (c : SearchCounters) (it : SyncItemObs)
    (gl : Nat) (hg : g = some gl) (hc : c.dailyCount ≤ gl) :
    (syncSearchStep g p c it).dailyCount ≤ gl := by
  unfold syncSearchStep
  by_cases h : (it.wantsSearch && limitAllows g c.dailyCount &&
      limitAllows p c.runCount && it.triggerSucceeds) = true
  · rw [if_pos h]
    simp only [Bool.and_eq_true] at h
    have hlt : c.dailyCount < gl := by
      have := h.1.1.2
      rwa [hg, limitAllows, decide_eq_true_eq] at this
    exact hlt
  · rw [if_neg h]
    exact hc

theorem foldl_syncSearchStep_run_le (g p : Option Nat) (pl : Nat) (hp : p = some pl)
    (items : List SyncItemObs) :
    ∀ c : SearchCounters, c.runCount ≤ pl →
      (items.foldl (syncSearchStep g p) c).runCount ≤ pl := by
  induction items with
  | nil => exact fun c hc => hc
  | cons x xs ih =>
    intro c hc
    exact ih _ (syncSearchStep_run_le g p c x pl hp hc)

theorem foldl_syncSearchStep_daily_le (g p : Option Nat) (gl : Nat) (hg : g = some gl)
    (items : List SyncItemObs) :
    ∀ c : SearchCounters, c.dailyCount ≤ gl →
      (items.foldl (syncSearchStep g p) c).dailyCount ≤ gl := by
  induction items with
  | nil => exact fun c hc => hc
  | cons x xs ih =>
    intro c hc
    exact ih _ (syncSearchStep_daily_le g p c x gl hg hc)

theorem upgradeSearchLoop_run_le (g : Option Nat) (p : Nat) (l : List Bool) :
    ∀ (i : Nat) (c : SearchCounters), c.runCount ≤ i → i ≤ p →
      (upgradeSearchLoop g p l i c).runCount ≤ p := by
  induction l with
  | nil =>
    intro i c hc hi
    exact le_trans hc hi
  | cons x xs ih =>
    intro i c hc hi
    unfold upgradeSearchLoop
    by_cases h1 : p ≤ i
    · rw [if_pos h1]
      exact le_trans hc (le_trans hi (le_refl p))
    · rw [if_neg h1]
      by_cases h2 : dailyLimitReached g c.dailyCount = true
      · rw [if_pos h2]
        exact le_trans hc (le_of_lt (lt_of_not_le h1))
      · rw [if_neg h2]
        refine ih (i + 1) _ ?_ (Nat.succ_le_of_lt (lt_of_not_le h1))
        by_cases hx : x = true
        · simp [hx, Nat.succ_le_succ hc]
        · simp only [Bool.not_eq_true] at hx
          simp only [hx, if_neg]
          simp
          exact le_trans hc (Nat.le_succ i)

theorem upgradeSearchLoop_daily_le (g : Option Nat) (p : Nat) (gl : Nat)
    (hg : g = some gl) (l : List Bool) :
    ∀ (i : Nat) (c : SearchCounters), c.dailyCount ≤ gl →
      (upgradeSearchLoop g p l i c).dailyCount ≤ gl := by
  induction l with
  | nil => exact fun i c hc => hc
  | cons x xs ih =>
    intro i c hc
    unfold upgradeSearchLoop
    by_cases h1 : p ≤ i
    · rw [if_pos h1]
      exact hc
    · rw [if_neg h1]
      by_cases h2 : dailyLimitReached g c.dailyCount = true
      · rw [if_pos h2]
        exact hc
      · rw [if_neg h2]
        refine ih (i + 1) _ ?_
        rw [hg] at h2
        simp only [dailyLimitReached, decide_eq_true_eq] at h2
        have hlt : c.dailyCount < gl := lt_of_not_le h2
        by_cases hx : x = true
        · simp [hx]
          exact hlt
        · simp only [Bool.not_eq_true] at hx
          simp [hx]
          exact hc

theorem job_upgrade_counters_run_le (g : Option Nat) (pl : Nat) (cands : List Bool)
    (d0 : Nat) : (job_upgrade_counters g pl cands d0).runCount ≤ pl := by
  unfold job_upgrade_counters
  exact upgradeSearchLoop_run_le g pl _ 0 _ (Nat.le_refl 0) (Nat.zero_le pl)

theorem job_upgrade_counters_daily_le (g : Nat) (pl : Nat) (cands : List Bool)
    (d0 : Nat) (hd : d0 ≤ g) :
    (job_upgrade_counters (some g) pl cands d0).dailyCount ≤ g := by
  unfold job_upgrade_counters
  exact upgradeSearchLoop_daily_le (some g) pl g rfl _ 0 _ hd

theorem daily_count_after_le (g : Nat) (runs : List JobRun) :
    ∀ d, d ≤ g → daily_count_after (some g) runs d ≤ g := by
  induction runs with
  | nil => exact fun d hd => hd
  | cons r rs ih =>
    intro d hd
    show daily_count_after (some g) rs _ ≤ g
    cases r with
    | sync p items =>
      exact ih _ (foldl_syncSearchStep_daily_le (some g) p g rfl items _ hd)
    | upgrade p cands =>
      exact ih _ (job_upgrade_counters_daily_le g p cands d hd)
    | dayReset => exact ih 0 (Nat.zero_le g)

/-- C1: in one watchlist-sync or upgrade-sweep invocation the number of
triggered searches never exceeds the per-run limit when it is set, and the
persisted daily count never exceeds the global daily limit — within one run
when the persisted count starts at or below the limit, and across any
sequence of runs sharing the one persisted counter file starting from an
empty file. -/
theorem search_admission_limits (gOpt pOpt : Option Nat) (g pl : Nat)
    (items : List SyncItemObs) (cands : List Bool) (d0 : Nat) (runs : List JobRun) :
    (process_watchlist_counters gOpt (some pl) items d0).runCount ≤ pl ∧
    (job_upgrade_counters gOpt pl cands d0).runCount ≤ pl ∧
    (d0 ≤ g → (process_watchlist_counters (some g) pOpt items d0).dailyCount ≤ g) ∧
    (d0 ≤ g → (job_upgrade_counters (some g) pl cands d0).dailyCount ≤ g) ∧
    daily_count_after (some g) runs 0 ≤ g := by
  refine ⟨?_, job_upgrade_counters_run_le gOpt pl cands d0, ?_, ?_, ?_⟩
  · exact foldl_syncSearchStep_run_le gOpt (some pl) pl rfl items _ (Nat.zero_le pl)
  · intro hd
    exact foldl_syncSearchStep_daily_le (some g) pOpt g rfl items _ hd
  · exact job_upgrade_counters_daily_le g pl cands d0
  · exact daily_count_after_le g runs 0 (Nat.zero_le g)

/-- C1 witness: three admissible items against daily limit 2 starting from
persisted count 1 leave the daily count at or below the limit. -/
theorem search_admission_limits_witness :
    1 ≤ 2 ∧
    (process_watchlist_counters (some 2) (some 5)
      [⟨true, true⟩, ⟨true, true⟩, ⟨true, true⟩] 1).dailyCount ≤ 2 :=
  ⟨by norm_num,
   (search_admission_limits (some 2) (some 5) 2 5
      [⟨true, true⟩, ⟨true, true⟩, ⟨true, true⟩] [] 1 []).2.2.1 (by norm_num)⟩

/-! ### Once-only automatic search through the sync path (src/main.py 361-388,
src/database.py mark_movie_as_searched)

For a single watchlist item we track its cache record's
`last_radarr_search` field and the number of successful searches issued for
it through the watchlist-sync existing-movie path.  Per run, the path is
reached only when the item resolves to a Radarr movie eligible for upgrade
(summarized by `reachesSearchBlock`); it denies when the record carries a
non-null timestamp, otherwise triggers subject to the limit checks
(`limitsAllow`); a successful trigger records the timestamp via
`mark_movie_as_searched`.  `save_plex_metadata` never writes
`last_radarr_search`, and the engine never deletes cache records, so the
field changes only here. -/

structure SyncRunObs where
  reachesSearchBlock : Bool
  limitsAllow : Bool
  triggerSucceeds : Bool
deriving DecidableEq

structure ItemSearchState where
  lastSearch : Option Nat
  successfulSearches : Nat
deriving DecidableEq

/-- The effect of one watchlist-sync run on one item's cache search state. -/
def sync_item_run (obs : SyncRunObs) (t : Nat) (st : ItemSearchState) : ItemSearchState :=
  if obs.reachesSearchBlock then
    match st.lastSearch with
    | some _ => st
    | none =>
      if obs.limitsAllow && obs.triggerSucceeds then
        { lastSearch := some t, successfulSearches := st.successfulSearches + 1 }
      else st
  else st

/-- The item's cache search state after a sequence of runs, each with its
observation and its wall-clock time. -/
def sync_item_runs (runs : List (SyncRunObs × Nat)) (st : ItemSearchState) :
    ItemSearchState :=
  runs.foldl (fun s r => sync_item_run r.1 r.2 s) st

theorem sync_item_run_fixed_of_some (obs : SyncRunObs) (t t0 : Nat) (n : Nat) :
    sync_item_run obs t { lastSearch := some t0, successfulSearches := n } =
      { lastSearch := some t0, successfulSearches := n } := by
  unfold sync_item_run
  by_cases h : obs.reachesSearchBlock = true
  · simp [h]
  · simp only [Bool.not_eq_true] at h
    simp [h]

theorem sync_item_runs_fixed_of_some (runs : List (SyncRunObs × Nat)) (t0 n : Nat) :
    sync_item_runs runs { lastSearch := some t0, successfulSearches := n } =
      { lastSearch := some t0, successfulSearches := n } := by
  induction runs with
  | nil => rfl
  | cons r rs ih =>
    show sync_item_runs rs
        (sync_item_run r.1 r.2 { lastSearch := some t0, successfulSearches := n }) = _
    rw [sync_item_run_fixed_of_some, ih]

theorem sync_item_runs_at_most_one (runs : List (SyncRunObs × Nat)) :
    ∀ st : ItemSearchState,
      (st.lastSearch = none ∧ st.successfulSearches = 0) →
      (sync_item_runs runs st).successfulSearches ≤ 1 := by
  induction runs with
  | nil =>
    intro st hst
    simp [sync_item_runs, hst.2]
  | cons r rs ih =>
    intro st hst
    show (sync_item_runs rs (sync_item_run r.1 r.2 st)).successfulSearches ≤ 1
    rcases st with ⟨ls, n⟩
    simp only at hst
    rw [hst.1, hst.2]
    unfold sync_item_run
    by_cases h1 : r.1.reachesSearchBlock = true
    · simp only [h1, if_pos]
      by_cases h2 : (r.1.limitsAllow && r.1.triggerSucceeds) = true
      · simp only [h2, if_pos]
        rw [show (0 : Nat) + 1 = 1 from rfl, sync_item_runs_fixed_of_some rs r.2 1]
      · simp only [h2]
        rw [if_neg (by simp [h2])]
        exact ih _ ⟨rfl, rfl⟩
    · simp only [Bool.not_eq_true] at h1
      simp only [h1]
      rw [if_neg (by simp)]
      exact ih _ ⟨rfl, rfl⟩

/-- C3: through the watchlist-sync path an item whose cache record already
carries a non-null last-search timestamp is never searched again — its state
is unchanged by any number of further runs — and an item starting with no
recorded search accumulates at most one successful automatic search over any
sequence of runs. -/
theorem sync_path_at_most_one_search (runs : List (SyncRunObs × Nat)) (t0 n0 : Nat) :
    sync_item_runs runs { lastSearch := some t0, successfulSearches := n0 } =
      { lastSearch := some t0, successfulSearches := n0 } ∧
    (sync_item_runs runs { lastSearch := none, successfulSearches := 0 }).successfulSearches ≤ 1 :=
  ⟨sync_item_runs_fixed_of_some runs t0 n0,
   sync_item_runs_at_most_one runs _ ⟨rfl, rfl⟩⟩

/-! ### Upgrade-tag eligibility (src/main.py 297-317, src/scheduled_upgrader.py
189-222)

Sizes are integer byte counts from Radarr; the threshold is the configured
`min_file_size_gb`, a rational (Python reads it as int or float; either is an
exact rational, and the divisions `size_bytes / 1024**3` performed here are
exact for realistic operand sizes, so ℚ models them faithfully). -/

/-- Models `movie_size_gb = size_bytes / (1024 ** 3) if size_bytes else 0`. -/
def movie_size_gb (sizeBytes : Nat) : ℚ :=
  if sizeBytes = 0 then 0 else (sizeBytes : ℚ) / 1073741824

/-- Models `eligible_for_upgrade = (movie_size_gb < min_upgrade_gb)`. -/
def eligible_for_upgrade (sizeBytes : Nat) (minGb : ℚ) : Bool :=
  movie_size_gb sizeBytes < minGb

/-- Models the tag-list construction for an existing movie in
`process_watchlist`: union in the watchlist tag, add the upgrade tag when
eligible or strip it when not, then append the friend tag when it is truthy
and absent. -/
def build_sync_tags (radarrTags : List Nat) (watchlistTag upgradeTag : Nat)
    (friendTagId : Option Nat) (eligible : Bool) : List Nat :=
  let tags := (radarrTags ++ [watchlistTag]).dedup
  let tags2 := match eligible with
    | true => (tags ++ [upgradeTag]).dedup
    | false => tags.filter (fun t => t ≠ upgradeTag)
  match friendTagId with
  | some f => if f ≠ 0 ∧ f ∉ tags2 then tags2 ++ [f] else tags2
  | none => tags2

/-- Models phase 1 of `job_upgrade`: when
`size_bytes >= min_size_gb * 1024**3` the upgrade tag is removed from the
movie's tag list (via `remove_tag_from_movie`), otherwise the list is left
alone. -/
def sweep_phase1_tags (tags : List Nat) (upgradeTag : Nat) (sizeBytes : Nat)
    (minGb : ℚ) : List Nat :=
  if minGb * 1073741824 ≤ (sizeBytes : ℚ) then tags.filter (fun t => t ≠ upgradeTag)
  else tags

theorem movie_size_gb_eq_div (sizeBytes : Nat) :
    movie_size_gb sizeBytes = (sizeBytes : ℚ) / 1073741824 := by
  unfold movie_size_gb
  by_cases h : sizeBytes = 0
  · rw [if_pos h, h]
    norm_num
  · rw [if_neg h]

theorem eligible_iff_bytes_lt (sizeBytes : Nat) (minGb : ℚ) :
    eligible_for_upgrade sizeBytes minGb = true ↔
      (sizeBytes : ℚ) < minGb * 1073741824 := by
  unfold eligible_for_upgrade
  rw [movie_size_gb_eq_div, decide_eq_true_eq,
    div_lt_iff₀ (by norm_num : (0 : ℚ) < 1073741824)]

theorem mem_build_sync_tags_true (radarrTags : List Nat) (watchlistTag upgradeTag : Nat)
    (friendTagId : Option Nat) :
    upgradeTag ∈ build_sync_tags radarrTags watchlistTag upgradeTag friendTagId true := by
  unfold build_sync_tags
  dsimp only
  have hbase : upgradeTag ∈ ((radarrTags ++ [watchlistTag]).dedup ++ [upgradeTag]).dedup := by
    rw [List.mem_dedup]
    simp
  cases friendTagId with
  | none => exact hbase
  | some f =>
    dsimp only
    by_cases hc : f ≠ 0 ∧ f ∉ ((radarrTags ++ [watchlistTag]).dedup ++ [upgradeTag]).dedup
    · rw [if_pos hc, List.mem_append]
      exact Or.inl hbase
    · rw [if_neg hc]
      exact hbase

theorem mem_build_sync_tags_false (radarrTags : List Nat) (watchlistTag upgradeTag : Nat)
    (friendTagId : Option Nat) (hf : friendTagId ≠ some upgradeTag) :
    upgradeTag ∉ build_sync_tags radarrTags watchlistTag upgradeTag friendTagId false := by
  unfold build_sync_tags
  dsimp only
  have hbase : upgradeTag ∉
      ((radarrTags ++ [watchlistTag]).dedup).filter (fun t => t ≠ upgradeTag) := by
    intro hmem
    rw [List.mem_filter] at hmem
    simp at hmem
  cases friendTagId with
  | none => exact hbase
  | some f =>
    dsimp only
    have hfu : f ≠ upgradeTag := fun hh => hf (by rw [hh])
    by_cases hc : f ≠ 0 ∧ f ∉
        ((radarrTags ++ [watchlistTag]).dedup).filter (fun t => t ≠ upgradeTag)
    · rw [if_pos hc]
      intro hmem
      rw [List.mem_append] at hmem
      rcases hmem with hmem | hmem
      · exact hbase hmem
      · simp only [List.mem_singleton] at hmem
        exact hfu hmem.symm
    · rw [if_neg hc]
      exact hbase

/-- C4: on the sync path the upgrade tag is a member of the constructed tag
list exactly when the on-disk size in bytes is strictly below the configured
threshold converted to bytes (provided the friend tag is not the upgrade tag
itself); on the sweep, after phase 1 the upgrade tag remains exactly when it
was present and the size is strictly below the byte threshold; and a size
exactly at the boundary (4 GB against a 4 GB threshold) is not eligible. -/
theorem upgrade_tag_threshold (sizeBytes : Nat) (minGb : ℚ) (radarrTags tags0 : List Nat)
    (watchlistTag upgradeTag : Nat) (friendTagId : Option Nat)
    (hf : friendTagId ≠ some upgradeTag) :
    (upgradeTag ∈ build_sync_tags radarrTags watchlistTag upgradeTag friendTagId
        (eligible_for_upgrade sizeBytes minGb) ↔
      (sizeBytes : ℚ) < minGb * 1073741824) ∧
    (upgradeTag ∈ sweep_phase1_tags tags0 upgradeTag sizeBytes minGb ↔
      (upgradeTag ∈ tags0 ∧ (sizeBytes : ℚ) < minGb * 1073741824)) ∧
    eligible_for_upgrade (4 * 1073741824) 4 = false := by
  refine ⟨?_, ?_, ?_⟩
  · constructor
    · intro hmem
      by_contra hge
      have he : eligible_for_upgrade sizeBytes minGb = false := by
        cases heb : eligible_for_upgrade sizeBytes minGb with
        | true => exact absurd ((eligible_iff_bytes_lt sizeBytes minGb).mp heb) hge
        | false => rfl
      rw [he] at hmem
      exact mem_build_sync_tags_false radarrTags watchlistTag upgradeTag friendTagId hf hmem
    · intro hlt
      rw [(eligible_iff_bytes_lt sizeBytes minGb).mpr hlt]
      exact mem_build_sync_tags_true radarrTags watchlistTag upgradeTag friendTagId
  · unfold sweep_phase1_tags
    by_cases h : minGb * 1073741824 ≤ (sizeBytes : ℚ)
    · rw [if_pos h, List.mem_filter]
      simp only [decide_eq_true_eq]
      constructor
      · intro hmem
        exact absurd rfl hmem.2
      · intro hmem
        exact absurd hmem.2 (not_lt_of_le h)
    · rw [if_neg h]
      have hlt : (sizeBytes : ℚ) < minGb * 1073741824 := lt_of_not_le h
      simp [hlt]
  · rw [show (eligible_for_upgrade (4 * 1073741824) 4 = false) ↔
      ¬ (eligible_for_upgrade (4 * 1073741824) 4 = true) by simp]
    rw [eligible_iff_bytes_lt]
    push_cast
    norm_num

/-- C4 witness: a 1-byte file against a 4 GB threshold receives the upgrade
tag on the sync path. -/
theorem upgrade_tag_threshold_witness :
    2 ∈ build_sync_tags [] 1 2 none (eligible_for_upgrade 1 4) :=
  ((upgrade_tag_threshold 1 4 [] [] 1 2 none (by simp)).1).mpr (by norm_num)

/-! ### Job mutual-exclusion gate (src/watchlist-scheduler.py)

`flock` with LOCK_EX|LOCK_NB is adjudicated atomically by the kernel, so the
gate is modelled as an atomic transition on the per-job lock state.  Ages
and the timeout are seconds as rationals. -/

structure LockState where
  held : Bool
deriving DecidableEq

structure AcquireOutcome where
  acquired : Bool
  staleWarned : Bool
deriving DecidableEq

/-- Models `with_job_lock(func_name)` for one job name: on a free lock it
acquires and returns true; on a held lock it returns false and merely logs a
staleness warning when the lock file's age exceeds the configured timeout —
the held lock is left untouched. -/
def with_job_lock (st : LockState) (lockAge timeoutSecs : ℚ) :
    AcquireOutcome × LockState :=
  if st.held then
    ({ acquired := false, staleWarned := timeoutSecs < lockAge }, st)
  else
    ({ acquired := true, staleWarned := false }, { held := true })

/-- Models `release_job_lock(func_name)`: unlock and remove the lock file. -/
def release_job_lock (_st : LockState) : LockState :=
  { held := false }

/-- C9: from a free lock, of two acquisitions serialized by the kernel the
first returns true and the second false (exactly one succeeds); after a
release a subsequent acquisition succeeds; and an acquisition that fails
because the lock is held returns false with the lock state unchanged, the
staleness warning firing exactly when the lock age exceeds the timeout. -/
theorem job_lock_gate (a1 a2 tmo : ℚ) (st : LockState) :
    (with_job_lock { held := false } a1 tmo).1.acquired = true ∧
    (with_job_lock (with_job_lock { held := false } a1 tmo).2 a2 tmo).1.acquired = false ∧
    (with_job_lock (release_job_lock st) a1 tmo).1.acquired = true ∧
    with_job_lock { held := true } a1 tmo =
      ({ acquired := false, staleWarned := tmo < a1 }, { held := true }) := by
  refine ⟨rfl, rfl, rfl, ?_⟩
  unfold with_job_lock
  rfl

/-! ### Tag lookup and creation (src/radarr_api.py)

The Radarr tag registry is the server-side list of `{id, label}` tags; the
module keeps a process-lifetime cache `_tag_cache`, a dict from lower-cased
label to id, populated by `get_all_tags` and updated by `create_tag`.  API
outcomes are passed in as flags; a successful create yields a fresh
server-assigned id. -/

structure RadarrTag where
  id : Nat
  label : String
deriving DecidableEq

structure TagModuleState where
  registry : List RadarrTag
  tagCache : Option (List (String × Nat))
deriving DecidableEq

/-- The dict comprehension `{tag["label"].lower(): tag["id"] for tag in result}`. -/
def buildTagCache (tags : List RadarrTag) : List (String × Nat) :=
  tags.foldl (fun m t => dictUpsert m (pyLower t.label) t.id) []

/-- Models `get_all_tags()`: on a successful fetch the cache is rebuilt from
the registry and the registry returned; on failure the cache is untouched
and the result is empty. -/
def get_all_tags (fetchOk : Bool) (st : TagModuleState) :
    List RadarrTag × TagModuleState :=
  if fetchOk then (st.registry, { st with tagCache := some (buildTagCache st.registry) })
  else ([], st)

/-- Models `create_tag(tag_name)`: on success the server appends a tag with a
fresh id, the cache (when populated) gains the lower-cased label, and the new
id is returned. -/
def create_tag (label : String) (createOk : Bool) (newId : Nat)
    (st : TagModuleState) : Option Nat × TagModuleState :=
  if createOk then
    (some newId,
     { registry := st.registry ++ [{ id := newId, label := label }],
       tagCache := match st.tagCache with
         | some m => some (dictUpsert m (pyLower label) newId)
         | none => none })
  else (none, st)

structure TagLookupResult where
  tagId : Option Nat
  createIssued : Bool
deriving DecidableEq

/-- Models `get_or_create_tag(tag_name)`: populate the cache when absent,
answer from the cache on a case-insensitive hit, otherwise create. -/
def get_or_create_tag (label : String) (fetchOk createOk : Bool) (newId : Nat)
    (st : TagModuleState) : TagLookupResult × TagModuleState :=
  let st1 := if st.tagCache = none then (get_all_tags fetchOk st).2 else st
  match dictLookup (st1.tagCache.getD []) (pyLower label) with
  | some i => ({ tagId := some i, createIssued := false }, st1)
  | none =>
    let res := create_tag label createOk newId st1
    ({ tagId := res.1, createIssued := true }, res.2)

theorem buildTagCache_lookup_some (tags : List RadarrTag) :
    ∀ (acc : List (String × Nat)) (k : String) (i : Nat),
      dictLookup (tags.foldl (fun m t => dictUpsert m (pyLower t.label) t.id) acc) k
          = some i →
      (∃ t ∈ tags, pyLower t.label = k ∧ t.id = i) ∨ dictLookup acc k = some i := by
  induction tags with
  | nil =>
    intro acc k i h
    exact Or.inr h
  | cons t ts ih =>
    intro acc k i h
    rcases ih _ k i h with hh | hh
    · rcases hh with ⟨u, hu, hul, hui⟩
      exact Or.inl ⟨u, List.mem_cons_of_mem _ hu, hul, hui⟩
    · rw [dictLookup_upsert] at hh
      by_cases hk : k = pyLower t.label
      · rw [if_pos hk, Option.some.injEq] at hh
        exact Or.inl ⟨t, List.mem_cons_self _ _, hk.symm, hh⟩
      · rw [if_neg hk] at hh
        exact Or.inr hh

theorem buildTagCache_lookup_ne_none (tags : List RadarrTag) :
    ∀ (acc : List (String × Nat)) (k : String),
      ((∃ t ∈ tags, pyLower t.label = k) ∨ dictLookup acc k ≠ none) →
      dictLookup (tags.foldl (fun m t => dictUpsert m (pyLower t.label) t.id) acc) k
        ≠ none := by
  induction tags with
  | nil =>
    intro acc k h
    rcases h with ⟨t, ht, _⟩ | h
    · simp at ht
    · exact h
  | cons t ts ih =>
    intro acc k h
    rcases h with ⟨u, hu, huk⟩ | h
    · rcases List.mem_cons.mp hu with hh | hh
      · refine ih _ k (Or.inr ?_)
        subst hh
        rw [dictLookup_upsert]
        rw [if_pos huk.symm]
        simp
      · exact ih _ k (Or.inl ⟨u, hh, huk⟩)
    · refine ih _ k (Or.inr ?_)
      rw [dictLookup_upsert]
      by_cases hk : k = pyLower t.label
      · rw [if_pos hk]
        simp
      · rwa [if_neg hk]

/-- C10: when the cache is absent or consistent with the registry and the
API calls succeed, `get_or_create_tag` answers a case-insensitively matching
registry label with that existing tag's id and issues no creation call; it
creates only when no case-insensitive match exists, returning the fresh id
and recording it in the process-lifetime cache. -/
theorem get_or_create_tag_case_insensitive (label : String) (newId : Nat)
    (st : TagModuleState)
    (hcons : st.tagCache = none ∨ st.tagCache = some (buildTagCache st.registry)) :
    ((∃ t ∈ st.registry, pyLower t.label = pyLower label) →
      (get_or_create_tag label true true newId st).1.createIssued = false ∧
      ∃ t ∈ st.registry, pyLower t.label = pyLower label ∧
        (get_or_create_tag label true true newId st).1.tagId = some t.id) ∧
    ((¬ ∃ t ∈ st.registry, pyLower t.label = pyLower label) →
      (get_or_create_tag label true true newId st).1.createIssued = true ∧
      (get_or_create_tag label true true newId st).1.tagId = some newId ∧
      dictLookup (((get_or_create_tag label true true newId st).2.tagCache).getD [])
          (pyLower label) = some newId ∧
      (get_or_create_tag label true true newId st).2.registry =
        st.registry ++ [{ id := newId, label := label }]) := by
  have hst1 : (if st.tagCache = none then (get_all_tags true st).2 else st).tagCache
      = some (buildTagCache st.registry) ∧
      (if st.tagCache = none then (get_all_tags true st).2 else st).registry
      = st.registry := by
    rcases hcons with hc | hc
    · rw [if_pos hc]
      exact ⟨rfl, rfl⟩
    · rw [if_neg (by rw [hc]; simp)]
      exact ⟨hc, rfl⟩
  constructor
  · intro hex
    have hne : dictLookup (buildTagCache st.registry) (pyLower label) ≠ none := by
      unfold buildTagCache
      exact buildTagCache_lookup_ne_none st.registry [] (pyLower label) (Or.inl hex)
    cases hv : dictLookup (buildTagCache st.registry) (pyLower label) with
    | none => exact absurd hv hne
    | some i =>
      have hres : get_or_create_tag label true true newId st
          = ({ tagId := some i, createIssued := false },
             if st.tagCache = none then (get_all_tags true st).2 else st) := by
        unfold get_or_create_tag
        dsimp only
        rw [hst1.1]
        simp only [Option.getD_some]
        rw [hv]
      rcases buildTagCache_lookup_some st.registry [] (pyLower label) i hv with hh | hh
      · rcases hh with ⟨t, ht, htl, hti⟩
        refine ⟨by rw [hres], t, ht, htl, ?_⟩
        rw [hres, hti]
      · simp [dictLookup] at hh
  · intro hnex
    have hnone : dictLookup (buildTagCache st.registry) (pyLower label) = none := by
      cases hv : dictLookup (buildTagCache st.registry) (pyLower label) with
      | none => rfl
      | some i =>
        rcases buildTagCache_lookup_some st.registry [] (pyLower label) i hv with hh | hh
        · exact absurd ⟨hh.choose, hh.choose_spec.1, hh.choose_spec.2.1⟩ hnex
        · simp [dictLookup] at hh
    have hres : get_or_create_tag label true true newId st
        = ({ tagId := some newId, createIssued := true },
           (create_tag label true newId
             (if st.tagCache = none then (get_all_tags true st).2 else st)).2) := by
      unfold get_or_create_tag
      dsimp only
      rw [hst1.1]
      simp only [Option.getD_some]
      rw [hnone]
      rfl
    refine ⟨by rw [hres], by rw [hres], ?_, ?_⟩
    · rw [hres]
      unfold create_tag
      rw [if_pos rfl]
      dsimp only
      rw [hst1.1]
      simp only [Option.getD_some]
      rw [dictLookup_upsert, if_pos rfl]
    · rw [hres]
      unfold create_tag
      rw [if_pos rfl]
      dsimp only
      rw [hst1.2]

/-- C10 witness: with registry tag Friend-Bob (id 7) and an unpopulated
cache, requesting friend-bob issues no creation and returns id 7;
requesting friend-carol creates it with the fresh id 9. -/
theorem get_or_create_tag_case_insensitive_witness :
    (get_or_create_tag "friend-bob" true true 9
      { registry := [{ id := 7, label := "Friend-Bob" }], tagCache := none }).1.createIssued
        = false ∧
    (get_or_create_tag "friend-carol" true true 9
      { registry := [{ id := 7, label := "Friend-Bob" }], tagCache := none }).1.tagId
        = some 9 := by
  constructor
  · exact ((get_or_create_tag_case_insensitive "friend-bob" 9
      { registry := [{ id := 7, label := "Friend-Bob" }], tagCache := none }
      (Or.inl rfl)).1 ⟨{ id := 7, label := "Friend-Bob" }, by decide⟩).1
  · exact ((get_or_create_tag_case_insensitive "friend-carol" 9
      { registry := [{ id := 7, label := "Friend-Bob" }], tagCache := none }
      (Or.inl rfl)).2 (by decide)).2.1

end Foragerr
